import Mathlib

/-!
Shallow embedding of the Krohnkite tiling engine (`src/engine.ts`).

Window handles (`KWin.Client`) and layout objects (`ILayout`) are opaque,
identity-compared references in the source; they are modelled as `Nat`
identifiers.  The adapter (`KWinDriver`) is modelled as a record of pure
response functions: engine operations take the adapter's responses as an
argument and return the updated engine state together with the list of
commands (geometry writes, marker writes, focus changes) issued to the
adapter.  In-place mutation of `Tile` objects held in `this.tiles` is
modelled positionally: the engine never pushes the same `Tile` object
twice, so object references correspond to list positions.
-/

namespace Krohnkite

/-- Axis-aligned rectangle `{x, y, width, height}` (integer device pixels). -/
structure Rect where
  x : Int
  y : Int
  width : Int
  height : Int
deriving DecidableEq, Inhabited

/-- Mutable per-window record of the engine (`class Tile`). -/
structure Tile where
  arrangeCount : Nat
  client : Nat
  floating : Bool
  geometry : Rect
  isError : Bool
  floatGeometry : Rect
deriving DecidableEq, Inhabited

/-- The `Tile` constructor: `arrangeCount=0`, cloned geometry, flags cleared. -/
def mkTile (client : Nat) (geometry : Rect) : Tile :=
  { arrangeCount := 0, client := client, floating := false,
    geometry := geometry, isError := false, floatGeometry := geometry }

/-- Declarative per-class rule (`class Rule`); `className` is `null` (here
`none`) when constructed from the empty string. -/
structure Rule where
  className : Option String
  ignore : Bool
  floating : Bool
deriving DecidableEq, Inhabited

/-- The `Rule` constructor. -/
def mkRule (className : String) (ignore floating : Bool) : Rule :=
  { className := if className.length > 0 then some className else none,
    ignore := ignore, floating := floating }

/-- One physical screen (`class Screen`).  Layout objects are identity
references in the source, modelled as `Nat` ids; `layout` is `none` when the
source field would be `null`/`undefined`. -/
structure Screen where
  id : Nat
  layout : Option Nat
  layouts : List Nat
deriving DecidableEq, Inhabited

/-- The four distinct built-in layout objects created by the `Screen`
constructor's default (`TileLayout`, `MonocleLayout`, `SpreadLayout`,
`StairLayout`). -/
def defaultLayouts : List Nat := [0, 1, 2, 3]

/-- The `Screen` constructor: `layout = layouts[0]`. -/
def mkScreen (id : Nat) (layouts : List Nat) : Screen :=
  { id := id, layout := layouts.head?, layouts := layouts }

/-- Abstract user-input commands (`enum UserInput`). -/
inductive UserInput where
  | Up | Down | Left | Right
  | ShiftUp | ShiftDown | ShiftLeft | ShiftRight
  | Increase | Decrease
  | SetMaster | Float | CycleLayout
deriving DecidableEq, Inhabited

/-- A command issued by the engine to the adapter: a geometry write
(`driver.setClientGeometry`), an always-above/always-below marker write
(`client.keepAbove`/`client.keepBelow`), or a focus change
(`driver.setActiveClient`). -/
inductive Cmd where
  | setGeometry (client : Nat) (g : Rect)
  | keepAbove (client : Nat) (value : Bool)
  | keepBelow (client : Nat) (value : Bool)
  | setActiveClient (client : Nat)
deriving DecidableEq, Inhabited

/-- The adapter's responses (`KWinDriver` + `workspace.activeClient`), as a
record of pure functions; `isClientVisible` returns `none` when the
underlying call would throw (it "may fault"). -/
structure Driver where
  getWorkingArea : Nat → Rect
  getClientClassName : Nat → String
  getClientGeometry : Nat → Rect
  isClientFullScreen : Nat → Bool
  isClientVisible : Nat → Nat → Option Bool
  activeClient : Nat
  activeClientScreen : Nat

/-- The layout collaborator's contract (`ILayout`), indexed by layout id:
`apply` returns the target geometries it assigns to the ordered tileables,
`handleUserInput` reports whether the layout intercepted the command. -/
structure LayoutOps where
  apply : Nat → List Tile → Rect → List Rect
  handleUserInput : Nat → UserInput → Bool

/-- The engine state (`class TilingEngine`): screens, tiles and rules. -/
structure TilingEngine where
  screens : List Screen
  tiles : List Tile
  rules : List Rule
deriving DecidableEq, Inhabited

/-- The `TilingEngine` constructor: all three lists empty. -/
def emptyEngine : TilingEngine :=
  { screens := [], tiles := [], rules := [] }

/-- Index of the first list element satisfying `p` (the source resolves
tiles and screens by scanning `for` loops). -/
def firstIdx (p : α → Bool) : List α → Option Nat
  | [] => none
  | a :: l => if p a then some 0 else (firstIdx p l).map (· + 1)

/-- Position of the first tile whose `client` is the given handle
(`getTileByClient`, returning the position instead of the reference). -/
def findTileIdx (client : Nat) (tiles : List Tile) : Option Nat :=
  firstIdx (fun t => t.client == client) tiles

/-- Position of the active screen (`getActiveScreen`): the first screen whose
`id` equals the active client's screen, else the `this.screens[0]` fallback
(`none` when the screen list is empty, i.e. `undefined`). -/
def activeScreenIdx (d : Driver) (e : TilingEngine) : Option Nat :=
  match firstIdx (fun s => s.id == d.activeClientScreen) e.screens with
  | some i => some i
  | none => if e.screens.isEmpty then none else some 0

/-- The active screen object (`getActiveScreen`). -/
def getActiveScreen (d : Driver) (e : TilingEngine) : Option Screen :=
  (activeScreenIdx d e).bind (fun i => e.screens.get? i)

/-- One visibility check (`isTileVisible`): a fault (`none` response, or the
`screen.id` access when the screen is `undefined`) is caught, sets the sticky
`isError` flag on the tile and yields `false`. -/
def tileVisCheck (d : Driver) (scr : Option Screen) (t : Tile) : Bool × Tile :=
  match scr with
  | none => (false, { t with isError := true })
  | some s =>
    match d.isClientVisible t.client s.id with
    | some b => (b, t)
    | none => (false, { t with isError := true })

/-- Visibility pass over the whole tile list (`getVisibleTiles`): returns the
tile list with fault-marking applied and the positions of the visible tiles.
Each per-tile check is independent and pure, so the source's in-order
`filter` is a `map` plus an index `filter`. -/
def visPass (d : Driver) (scr : Option Screen) (tiles : List Tile) :
    List Tile × List Nat :=
  (tiles.map (fun t => (tileVisCheck d scr t).2),
   (List.range tiles.length).filter
     (fun i => (tileVisCheck d scr (tiles.getD i default)).1))

/-- Reconciliation of one tile's live geometry against its stored target
(`applyTileGeometry`): if the four fields already match, reset the retry
counter and do nothing; otherwise reset (`isUpdated=true`) or increment
(`isUpdated=false`) the counter, and issue the write unless the counter
exceeds 5. -/
def applyTileGeometry (d : Driver) (t : Tile) (isUpdated : Bool) :
    Tile × Option Cmd :=
  let live := d.getClientGeometry t.client
  if live.x = t.geometry.x ∧ live.y = t.geometry.y ∧
      live.width = t.geometry.width ∧ live.height = t.geometry.height then
    ({ t with arrangeCount := 0 }, none)
  else
    let cnt := if isUpdated then 0 else t.arrangeCount + 1
    if cnt > 5 then ({ t with arrangeCount := cnt }, none)
    else ({ t with arrangeCount := cnt }, some (Cmd.setGeometry t.client t.geometry))

/-- Write the geometries computed by `screen.layout.apply` into the tileable
tiles (the layout mutates each tileable's `geometry` field in place). -/
def layoutApplyGeos (tiles : List Tile) : List Nat → List Rect → List Tile
  | [], _ => tiles
  | _, [] => tiles
  | i :: is, g :: gs =>
    layoutApplyGeos (tiles.set i { tiles.getD i default with geometry := g }) is gs

/-- The per-tileable loop of `arrange`: `applyTileGeometry(tile, true)`
followed by `tile.client.keepBelow = true`, in list order. -/
def reconcileGo (d : Driver) (tiles : List Tile) : List Nat → List Tile × List Cmd
  | [] => (tiles, [])
  | i :: is =>
    let t := tiles.getD i default
    let r := applyTileGeometry d t true
    let rest := reconcileGo d (tiles.set i r.1) is
    (rest.1, r.2.toList ++ [Cmd.keepBelow t.client true] ++ rest.2)

/-- One screen's portion of `arrange`: visibility pass, full-screen
exclusion (clearing the `keepBelow`/`keepAbove` markers), tileable/floating
partition, layout application, reconciliation, and floating `keepAbove`
marking. -/
def arrangeScreen (d : Driver) (lops : LayoutOps) (scr : Screen)
    (tiles : List Tile) : List Tile × List Cmd :=
  match scr.layout with
  | none => (tiles, [])
  | some lay =>
    let area := d.getWorkingArea scr.id
    let vp := visPass d (some scr) tiles
    let tiles₁ := vp.1
    let fullscreens := vp.2.filter
      (fun i => d.isClientFullScreen ((tiles₁.getD i default).client))
    let fsCmds := fullscreens.flatMap
      (fun i => [Cmd.keepBelow ((tiles₁.getD i default).client) false,
                 Cmd.keepAbove ((tiles₁.getD i default).client) false])
    let visibles := vp.2.filter
      (fun i => !(d.isClientFullScreen ((tiles₁.getD i default).client)))
    let tileables := visibles.filter (fun i => !((tiles₁.getD i default).floating))
    let floatings := visibles.filter (fun i => (tiles₁.getD i default).floating)
    let geos := lops.apply lay (tileables.map (fun i => tiles₁.getD i default)) area
    let tiles₂ := layoutApplyGeos tiles₁ tileables geos
    let rec₁ := reconcileGo d tiles₂ tileables
    let floatCmds := floatings.map
      (fun i => Cmd.keepAbove ((rec₁.1.getD i default).client) true)
    (rec₁.1, fsCmds ++ rec₁.2 ++ floatCmds)

/-- The `screens.forEach` loop of `arrange`, threading the tile list. -/
def arrangeGo (d : Driver) (lops : LayoutOps) :
    List Screen → List Tile → List Tile × List Cmd
  | [], tiles => (tiles, [])
  | s :: ss, tiles =>
    let r := arrangeScreen d lops s tiles
    let rest := arrangeGo d lops ss r.1
    (rest.1, r.2 ++ rest.2)

/-- Full arrangement pass (`arrange`). -/
def arrange (d : Driver) (lops : LayoutOps) (e : TilingEngine) :
    TilingEngine × List Cmd :=
  let r := arrangeGo d lops e.screens e.tiles
  ({ e with tiles := r.1 }, r.2)

/-- Single-window fast path (`arrangeClient`): no-op if untracked, floating
or full-screen, else `applyTileGeometry(tile, false)`. -/
def arrangeClient (d : Driver) (e : TilingEngine) (client : Nat) :
    TilingEngine × List Cmd :=
  match findTileIdx client e.tiles with
  | none => (e, [])
  | some j =>
    let t := e.tiles.getD j default
    if t.floating then (e, [])
    else if d.isClientFullScreen t.client then (e, [])
    else
      let r := applyTileGeometry d t false
      ({ e with tiles := e.tiles.set j r.1 }, r.2.toList)

/-- The `value` argument of `setFloat`: an explicit boolean or the string
`"toggle"`. -/
inductive FloatVal where
  | val (b : Bool)
  | toggle
deriving DecidableEq, Inhabited

/-- Shared tail of `setFloat` after `tile.floating` has been updated:
entering floating mode writes the given/remembered float geometry to the
adapter, leaving it captures the given/live geometry into `floatGeometry`. -/
def setFloatCore (d : Driver) (t : Tile) (geometry : Option Rect) :
    Tile × List Cmd :=
  if t.floating then
    (t, [Cmd.setGeometry t.client (geometry.getD t.floatGeometry)])
  else
    ({ t with floatGeometry := geometry.getD (d.getClientGeometry t.client) }, [])

/-- Mode switch of one tile (`setFloat`): toggling or setting `floating`
(no-op when an explicit boolean equals the current state). -/
def setFloat (d : Driver) (t : Tile) (value : FloatVal) (geometry : Option Rect) :
    Tile × List Cmd :=
  match value with
  | .val b =>
    if t.floating = b then (t, [])
    else setFloatCore d { t with floating := b } geometry
  | .toggle => setFloatCore d { t with floating := !t.floating } geometry

/-- Window admission (`manageClient`): reject when an `ignore` rule matches
the class name; otherwise create the tile, float it when a `floating` rule
matches, append it and re-arrange.  Returns the `accepted` flag with the new
state and issued commands. -/
def manageClient (d : Driver) (lops : LayoutOps) (e : TilingEngine)
    (client : Nat) : Bool × TilingEngine × List Cmd :=
  let className := d.getClientClassName client
  if e.rules.any (fun r => decide (r.className = some className) && r.ignore) then
    (false, e, [])
  else
    let tile := mkTile client (d.getClientGeometry client)
    let isFloat := e.rules.any
      (fun r => decide (r.className = some className) && r.floating)
    let tf := if isFloat then setFloat d tile (.val true) none else (tile, [])
    let e₁ := { e with tiles := e.tiles ++ [tf.1] }
    let r := arrange d lops e₁
    (true, r.1, tf.2 ++ r.2)

/-- Window removal (`unmanageClient`): drop every tile of this client and
every `isError` tile, then re-arrange. -/
def unmanageClient (d : Driver) (lops : LayoutOps) (e : TilingEngine)
    (client : Nat) : TilingEngine × List Cmd :=
  let kept := e.tiles.filter (fun t => !(t.client == client) && !t.isError)
  arrange d lops { e with tiles := kept }

/-- `addScreen`: append a screen with the default layouts. -/
def addScreen (e : TilingEngine) (screenId : Nat) : TilingEngine :=
  { e with screens := e.screens ++ [mkScreen screenId defaultLayouts] }

/-- `removeScreen`: drop the screens with the given id. -/
def removeScreen (e : TilingEngine) (screenId : Nat) : TilingEngine :=
  { e with screens := e.screens.filter (fun s => !(s.id == screenId)) }

/-- `updateRules`: wholesale replacement. -/
def updateRules (e : TilingEngine) (rules : List Rule) : TilingEngine :=
  { e with rules := rules }

/-- Focus movement (`moveFocus`): wrap-around step among the tiles visible on
the active screen, issuing one `setActiveClient` command.  The source's
`while (newIndex < 0) newIndex += visibles.length; newIndex %= length`
normalisation equals `Int.emod` for a non-empty visible list; with an empty
visible list the source never issues a command (its normalisation loop does
not terminate for negative `newIndex`, and the subsequent `visibles[NaN]`
access faults otherwise), modelled as the command-free result. -/
def moveFocus (d : Driver) (e : TilingEngine) (step : Int) :
    TilingEngine × List Cmd :=
  if step = 0 then (e, [])
  else
    match findTileIdx d.activeClient e.tiles with
    | none => (e, [])
    | some j =>
      let scr := getActiveScreen d e
      let vp := visPass d scr e.tiles
      let e₁ := { e with tiles := vp.1 }
      if vp.2.length = 0 then (e₁, [])
      else
        let index : Int :=
          match firstIdx (fun i => i == j) vp.2 with
          | some k => (k : Int)
          | none => -1
        let newIndex := (index + step).emod vp.2.length
        let pos := vp.2.getD newIndex.toNat 0
        (e₁, [Cmd.setActiveClient ((vp.1.getD pos default).client)])

/-- The scanning loop of `moveTile`: starting from `i = tileIdx + dir`, walk
the global list in direction `dir`, swapping the moved tile with each visible
tile encountered (decrementing `step` towards zero), skipping invisible ones;
visibility checks apply the `isError` fault marking.  `tile` is the reference
captured before the loop — the loop never visibility-checks the moved tile's
own position, so it stays unmodified.  Fuel bounds the iteration count (the
source loop takes at most `tiles.length` steps since `i` is monotone). -/
def moveTileLoop (d : Driver) (scr : Option Screen) (tile : Tile) (dir : Int) :
    Nat → List Tile → Nat → Int → Int → List Tile
  | 0, tiles, _, _, _ => tiles
  | fuel + 1, tiles, tileIdx, i, step =>
    if 0 ≤ i ∧ i < (tiles.length : Int) then
      let n := i.toNat
      let res := tileVisCheck d scr (tiles.getD n default)
      let tiles₁ := tiles.set n res.2
      if res.1 then
        let tiles₂ := (tiles₁.set tileIdx (tiles₁.getD n default)).set n tile
        let step₁ := step - dir
        if step₁ = 0 then tiles₂
        else moveTileLoop d scr tile dir fuel tiles₂ n (i + dir) step₁
      else moveTileLoop d scr tile dir fuel tiles₁ tileIdx (i + dir) step
    else tiles

/-- Tile reordering (`moveTile`, bound to `ShiftUp`/`ShiftDown` with
`step = ∓1`): no-op for `step = 0` or when the active client resolves to no
tile, else run the scanning loop from the focused tile's position. -/
def moveTile (d : Driver) (e : TilingEngine) (step : Int) : TilingEngine :=
  if step = 0 then e
  else
    match findTileIdx d.activeClient e.tiles with
    | none => e
    | some j =>
      let tile := e.tiles.getD j default
      let scr := getActiveScreen d e
      let dir : Int := if step > 0 then 1 else -1
      let tiles' := moveTileLoop d scr tile dir (e.tiles.length + 1)
        e.tiles j ((j : Int) + dir) step
      { e with tiles := tiles' }

/-- The backward shift loop of `setMaster`:
`for (i = index-1; i >= 0; i--) tiles[i+1] = tiles[i]` — each step copies the
(not yet overwritten) entry at `k` one slot to the right. -/
def shiftRight (l : List Tile) : Nat → List Tile
  | 0 => l
  | k + 1 => shiftRight (l.set (k + 1) (l.getD k default)) k

/-- Master promotion (`setMaster`): no-op when the active client resolves to
no tile or the resolved tile is already `tiles[0]`; otherwise shift all
preceding tiles one slot down and put the focused tile at index 0. -/
def setMaster (d : Driver) (e : TilingEngine) : TilingEngine :=
  match findTileIdx d.activeClient e.tiles with
  | none => e
  | some i =>
    if i = 0 then e
    else
      let tile := e.tiles.getD i default
      { e with tiles := (shiftRight e.tiles i).set 0 tile }

/-- Layout switch of one screen (the body of `cycleLayout`):
`index = (layouts.indexOf(layout) + target) % layouts.length` (JavaScript
`%` truncates toward zero, i.e. `Int.tmod`; `indexOf` yields `-1` when the
layout is absent) and `layout = layouts[index]` (`undefined`, i.e. `none`,
when `index` is out of bounds). -/
def cycleLayoutScreen (scr : Screen) (target : Int) : Screen :=
  let index₀ : Int :=
    match scr.layout with
    | none => -1
    | some lay =>
      match firstIdx (fun x => x == lay) scr.layouts with
      | some i => (i : Int)
      | none => -1
  let index := (index₀ + target).tmod (scr.layouts.length : Int)
  let newLayout : Option Nat :=
    if 0 ≤ index ∧ index < (scr.layouts.length : Int) then
      some (scr.layouts.getD index.toNat 0)
    else none
  { scr with layout := newLayout }

/-- Layout cycling (`cycleLayout`) applied to the active screen.  When no
active screen resolves the source faults on the `undefined` reference; that
is unreachable through `handleUserInput`, which guards first, and is
modelled as a no-op. -/
def cycleLayout (d : Driver) (e : TilingEngine) (target : Int) : TilingEngine :=
  match activeScreenIdx d e with
  | none => e
  | some i =>
    let scr := cycleLayoutScreen (e.screens.getD i default) target
    { e with screens := e.screens.set i scr }

/-- The `UserInput.Float` branch of `handleUserInput`: toggle the focused
tile's floating mode if one resolves. -/
def floatActive (d : Driver) (e : TilingEngine) : TilingEngine × List Cmd :=
  match findTileIdx d.activeClient e.tiles with
  | none => (e, [])
  | some j =>
    let r := setFloat d (e.tiles.getD j default) .toggle none
    ({ e with tiles := e.tiles.set j r.1 }, r.2)

/-- Command dispatch (`handleUserInput`): return immediately when no active
screen resolves; otherwise offer the input to the active layout (a layout
field of `none` is unreachable for engine-created screens and modelled as
"not handled"), then interpret the engine-level subset, and always finish
with a full `arrange`. -/
def handleUserInput (d : Driver) (lops : LayoutOps) (e : TilingEngine)
    (input : UserInput) : TilingEngine × List Cmd :=
  match getActiveScreen d e with
  | none => (e, [])
  | some screen =>
    let overriden :=
      match screen.layout with
      | some lay => lops.handleUserInput lay input
      | none => false
    if overriden then arrange d lops e
    else
      let r :=
        match input with
        | .Up => moveFocus d e (-1)
        | .Down => moveFocus d e 1
        | .ShiftUp => (moveTile d e (-1), [])
        | .ShiftDown => (moveTile d e 1, [])
        | .SetMaster => (setMaster d e, [])
        | .Float => floatActive d e
        | .CycleLayout => (cycleLayout d e 1, [])
        | _ => (e, [])
      let ar := arrange d lops r.1
      (ar.1, r.2 ++ ar.2)

/-! ## Definitions supporting the claims -/

/-- The fields of a tile that `arrange` never modifies. -/
def tkey (t : Tile) : Nat × Bool := (t.client, t.floating)

/-- Whether a tile is visible on a screen according to the adapter's
response (the value `isTileVisible` computes when the check does not
fault). -/
def visibleOn (d : Driver) (scr : Screen) (t : Tile) : Bool :=
  (tileVisCheck d (some scr) t).1

/-- One lifecycle operation, together with the adapter responses and layout
behaviour in effect when it runs (claim C1 quantifies over arbitrary
sequences of these). -/
inductive EngineOp where
  | manage (d : Driver) (lops : LayoutOps) (client : Nat)
  | unmanage (d : Driver) (lops : LayoutOps) (client : Nat)

/-- Apply one lifecycle operation to the engine state. -/
def applyOp (e : TilingEngine) : EngineOp → TilingEngine
  | .manage d lops c => (manageClient d lops e c).2.1
  | .unmanage d lops c => (unmanageClient d lops e c).1

/-- Run a sequence of lifecycle operations. -/
def runOps : TilingEngine → List EngineOp → TilingEngine
  | e, [] => e
  | e, op :: ops => runOps (applyOp e op) ops

/-- A sequence of lifecycle operations is fresh when no `manageClient` call
targets a handle that is in the tile list at that moment. -/
def freshOps : TilingEngine → List EngineOp → Bool
  | _, [] => true
  | e, .manage d lops c :: ops =>
    !((e.tiles.map Tile.client).contains c)
      && freshOps (applyOp e (.manage d lops c)) ops
  | e, .unmanage d lops c :: ops => freshOps (applyOp e (.unmanage d lops c)) ops

/-- Engine state after `n` invocations of `arrangeClient` on the same
window, the adapter's responses at call `i` being `ds i` (claim C2's
repeated-invocation scenario). -/
def arrangeClientIter (ds : Nat → Driver) (c : Nat) (e : TilingEngine) :
    Nat → TilingEngine
  | 0 => e
  | n + 1 => (arrangeClient (ds n) (arrangeClientIter ds c e n) c).1

/-- Commands issued by the `(n+1)`-st invocation of `arrangeClient` in the
scenario of `arrangeClientIter`. -/
def arrangeClientCmds (ds : Nat → Driver) (c : Nat) (e : TilingEngine)
    (n : Nat) : List Cmd :=
  (arrangeClient (ds n) (arrangeClientIter ds c e n) c).2

/-! ### Concrete fixtures used by counterexamples and witnesses -/

/-- A live geometry the adapter reports in the fixtures. -/
def rLive : Rect := ⟨1, 2, 3, 4⟩

/-- A stored target geometry distinct from `rLive`. -/
def rTarget : Rect := ⟨9, 9, 9, 9⟩

/-- A layout collaborator that keeps every tile's geometry and intercepts
nothing. -/
def lops0 : LayoutOps :=
  { apply := fun _ ts _ => ts.map (fun t => t.geometry)
    handleUserInput := fun _ _ => false }

/-- An adapter in which every window is visible, not full-screen, has class
`"term"` and live geometry `rLive`; the focused window is handle 3 on
screen 0. -/
def d0 : Driver :=
  { getWorkingArea := fun _ => ⟨0, 0, 1200, 800⟩
    getClientClassName := fun _ => "term"
    getClientGeometry := fun _ => rLive
    isClientFullScreen := fun _ => false
    isClientVisible := fun _ _ => some true
    activeClient := 3
    activeClientScreen := 0 }

/-- A screen with the default layouts. -/
def s0 : Screen := mkScreen 0 defaultLayouts

/-- A tile for window 3 whose stored target geometry is `rTarget` and whose
retry counter is already 3. -/
def t3 : Tile := { mkTile 3 rTarget with arrangeCount := 3 }

/-- A single-tile engine without screens, for the `arrangeClient` fixtures. -/
def e3 : TilingEngine := { emptyEngine with tiles := [t3] }

/-- A tile for window 4 whose sticky `isError` flag is already set. -/
def t4 : Tile := { mkTile 4 rTarget with isError := true }

/-- A one-screen engine holding only the faulted tile `t4`. -/
def e4 : TilingEngine := { emptyEngine with screens := [s0], tiles := [t4] }

/-- An adapter like `d0` except that window 2 is reported invisible. -/
def dV : Driver := { d0 with isClientVisible := fun c _ => some (c != 2) }

/-- Visible tile for window 1. -/
def tV : Tile := mkTile 1 rTarget

/-- Tile for window 2, invisible under `dV`. -/
def tU : Tile := mkTile 2 rTarget

/-- Tile for window 3, the focused window of `d0`/`dV`. -/
def tT : Tile := mkTile 3 rTarget

/-- A one-screen engine with tiles 1, 2, 3 in that order. -/
def e8 : TilingEngine := { emptyEngine with screens := [s0], tiles := [tV, tU, tT] }

/-- Engine whose rules both ignore and float class `"term"`. -/
def e5 : TilingEngine :=
  { emptyEngine with rules := [mkRule "term" false true, mkRule "term" true false] }

/-- A fresh tile for window 3 with target `rTarget` (retry counter 0). -/
def tC2 : Tile := mkTile 3 rTarget

/-- A single-tile engine for the repeated-`arrangeClient` scenario. -/
def eC2 : TilingEngine := { emptyEngine with tiles := [tC2] }

/-- A floating tile for window 6. -/
def tF : Tile := { mkTile 6 rLive with floating := true }

/-- A one-screen engine with one tileable and one floating tile. -/
def e7 : TilingEngine := { emptyEngine with screens := [s0], tiles := [tC2, tF] }

/-- An adapter whose visibility check faults for window 5 and reports every
other window visible. -/
def dFault : Driver :=
  { d0 with isClientVisible := fun c _ => if c == 5 then none else some true }

/-- A tile for window 5, whose visibility check faults under `dFault`. -/
def t5f : Tile := mkTile 5 rTarget

/-! ## List helper lemmas -/

@[simp]
theorem firstIdx_nil (p : α → Bool) : firstIdx p [] = none := rfl

@[simp]
theorem firstIdx_cons (p : α → Bool) (a : α) (l : List α) :
    firstIdx p (a :: l) =
      if p a then some 0 else (firstIdx p l).map (· + 1) := rfl

theorem getD_set_self {l : List α} {i : Nat} (h : i < l.length) (a d : α) :
    (l.set i a).getD i d = a := by
  simp [List.getD_eq_getElem?_getD, List.getElem?_set_self h]

theorem getD_set_ne {l : List α} {i j : Nat} (h : i ≠ j) (a d : α) :
    (l.set i a).getD j d = l.getD j d := by
  simp [List.getD_eq_getElem?_getD, List.getElem?_set_ne h]

theorem set_getD_self {l : List α} {i : Nat} (h : i < l.length) (d : α) :
    l.set i (l.getD i d) = l := by
  induction l generalizing i with
  | nil => simp at h
  | cons x xs ih =>
    cases i with
    | zero => simp
    | succ n =>
      simp only [List.set_cons_succ, List.getD_cons_succ]
      rw [ih (by simpa using h)]

theorem getD_map (f : α → β) (l : List α) (i : Nat) (d : α) :
    (l.map f).getD i (f d) = f (l.getD i d) := by
  simp only [List.getD_eq_getElem?_getD, List.getElem?_map]
  cases l[i]? <;> rfl

theorem getD_append_left {xs ys : List α} {i : Nat} (h : i < xs.length) (d : α) :
    (xs ++ ys).getD i d = xs.getD i d := by
  simp [List.getD_eq_getElem?_getD, List.getElem?_append, h]

theorem getD_append_right {xs ys : List α} (i : Nat) (d : α) :
    (xs ++ ys).getD (xs.length + i) d = ys.getD i d := by
  simp [List.getD_eq_getElem?_getD,
    List.getElem?_append_right (Nat.le_add_right xs.length i)]

theorem firstIdx_append_of_none {p : α → Bool} {xs : List α}
    (h : ∀ a ∈ xs, p a = false) (ys : List α) :
    firstIdx p (xs ++ ys) = (firstIdx p ys).map (· + xs.length) := by
  induction xs with
  | nil => simp [Option.map_id']
  | cons x l ih =>
    have hx : p x = false := h x (List.mem_cons_self x l)
    simp only [List.cons_append, firstIdx_cons, hx, Bool.false_eq_true, if_false,
      ih (fun a ha => h a (List.mem_cons_of_mem x ha))]
    cases firstIdx p ys with
    | none => simp
    | some k => simp [List.length_cons]; omega

theorem firstIdx_some_lt {p : α → Bool} {l : List α} {i : Nat}
    (h : firstIdx p l = some i) : i < l.length := by
  induction l generalizing i with
  | nil => simp at h
  | cons x xs ih =>
    simp only [firstIdx_cons] at h
    by_cases hx : p x
    · simp [hx] at h
      simp [List.length_cons]
      omega
    · simp [hx] at h
      obtain ⟨j, hj, rfl⟩ := h
      have := ih hj
      simp [List.length_cons]
      omega

theorem firstIdx_set_of_found {p : α → Bool} {l : List α} {j : Nat} {b : α}
    (h : firstIdx p l = some j) (hb : p b = true) :
    firstIdx p (l.set j b) = some j := by
  induction l generalizing j with
  | nil => simp at h
  | cons x xs ih =>
    simp only [firstIdx_cons] at h
    by_cases hx : p x
    · simp [hx] at h
      subst h
      simp [List.set_cons_zero, hb]
    · simp [hx] at h
      obtain ⟨i, hi, rfl⟩ := h
      simp [List.set_cons_succ, hx, ih hi]

/-! ## Invariants of the arrangement pass

`arrange` mutates only the `arrangeCount`, `geometry`, `isError` and
`floatGeometry` fields of the tiles it owns: the list of
(client, floating-flag) pairs is untouched.  This single invariant yields
both uniqueness preservation (C1) and the floating-exclusion property (C7). -/

theorem tileVisCheck_tkey (d : Driver) (scr : Option Screen) (t : Tile) :
    tkey (tileVisCheck d scr t).2 = tkey t := by
  cases scr with
  | none => simp [tileVisCheck, tkey]
  | some s =>
    cases h : d.isClientVisible t.client s.id <;> simp [tileVisCheck, tkey, h]

theorem applyTileGeometry_tkey (d : Driver) (t : Tile) (u : Bool) :
    tkey (applyTileGeometry d t u).1 = tkey t := by
  by_cases hg : (d.getClientGeometry t.client).x = t.geometry.x ∧
      (d.getClientGeometry t.client).y = t.geometry.y ∧
      (d.getClientGeometry t.client).width = t.geometry.width ∧
      (d.getClientGeometry t.client).height = t.geometry.height
  · simp [applyTileGeometry, hg, tkey]
  · by_cases hc : (if u then 0 else t.arrangeCount + 1) > 5 <;>
      simp [applyTileGeometry, hg, hc, tkey]

theorem map_tkey_set {l : List Tile} {i : Nat} {t' : Tile}
    (h : tkey t' = tkey (l.getD i default)) :
    (l.set i t').map tkey = l.map tkey := by
  by_cases hi : i < l.length
  · rw [List.map_set]
    have : tkey (l.getD i default) = (l.map tkey).getD i (tkey default) := by
      rw [getD_map]
    rw [h, this, set_getD_self (by simpa using hi)]
  · rw [List.set_eq_of_length_le (by omega)]

theorem visPass_tkey (d : Driver) (scr : Option Screen) (tiles : List Tile) :
    (visPass d scr tiles).1.map tkey = tiles.map tkey := by
  unfold visPass
  simp only [List.map_map]
  exact List.map_congr_left (fun t _ => tileVisCheck_tkey d scr t)

theorem layoutApplyGeos_tkey (tiles : List Tile) (is : List Nat) (gs : List Rect) :
    (layoutApplyGeos tiles is gs).map tkey = tiles.map tkey := by
  induction is generalizing tiles gs with
  | nil => simp [layoutApplyGeos]
  | cons i is ih =>
    cases gs with
    | nil => simp [layoutApplyGeos]
    | cons g gs =>
      rw [layoutApplyGeos, ih]
      apply map_tkey_set
      rfl

theorem reconcileGo_tkey (d : Driver) (tiles : List Tile) (is : List Nat) :
    (reconcileGo d tiles is).1.map tkey = tiles.map tkey := by
  induction is generalizing tiles with
  | nil => simp [reconcileGo]
  | cons i is ih =>
    rw [reconcileGo]
    simp only
    rw [ih]
    apply map_tkey_set
    exact applyTileGeometry_tkey _ _ _

theorem arrangeScreen_tkey (d : Driver) (lops : LayoutOps) (scr : Screen)
    (tiles : List Tile) :
    (arrangeScreen d lops scr tiles).1.map tkey = tiles.map tkey := by
  unfold arrangeScreen
  cases scr.layout with
  | none => rfl
  | some lay =>
    simp only
    rw [reconcileGo_tkey, layoutApplyGeos_tkey, visPass_tkey]

theorem arrangeGo_tkey (d : Driver) (lops : LayoutOps) (ss : List Screen)
    (tiles : List Tile) :
    (arrangeGo d lops ss tiles).1.map tkey = tiles.map tkey := by
  induction ss generalizing tiles with
  | nil => rfl
  | cons s ss ih =>
    rw [arrangeGo]
    simp only
    rw [ih, arrangeScreen_tkey]

theorem arrange_tkey (d : Driver) (lops : LayoutOps) (e : TilingEngine) :
    (arrange d lops e).1.tiles.map tkey = e.tiles.map tkey := by
  unfold arrange
  simp only
  exact arrangeGo_tkey d lops e.screens e.tiles

theorem arrange_clients (d : Driver) (lops : LayoutOps) (e : TilingEngine) :
    (arrange d lops e).1.tiles.map Tile.client = e.tiles.map Tile.client := by
  have h := arrange_tkey d lops e
  have h2 := congrArg (List.map Prod.fst) h
  simpa [List.map_map, Function.comp, tkey] using h2

/-- Two rectangles are equal iff their four fields agree (the comparison
`applyTileGeometry` performs field by field). -/
theorem rect_eq_iff {g g' : Rect} :
    g = g' ↔ (g.x = g'.x ∧ g.y = g'.y ∧ g.width = g'.width ∧ g.height = g'.height) := by
  constructor
  · rintro rfl; exact ⟨rfl, rfl, rfl, rfl⟩
  · rintro ⟨h1, h2, h3, h4⟩
    cases g; cases g'
    simp_all

/-- Characterization of `arrangeClient` on a tracked, non-floating,
non-full-screen window with mismatching live geometry: the retry counter is
incremented and the write is issued unless the new counter exceeds 5. -/
theorem arrangeClient_step (d : Driver) (e : TilingEngine) (c j : Nat)
    (hj : findTileIdx c e.tiles = some j)
    (hfl : (e.tiles.getD j default).floating = false)
    (hfs : d.isClientFullScreen (e.tiles.getD j default).client = false)
    (hg : d.getClientGeometry (e.tiles.getD j default).client
        ≠ (e.tiles.getD j default).geometry) :
    arrangeClient d e c
      = ({ e with tiles := e.tiles.set j ({ e.tiles.getD j default with
            arrangeCount := (e.tiles.getD j default).arrangeCount + 1 }) },
         if (e.tiles.getD j default).arrangeCount + 1 > 5 then []
         else [Cmd.setGeometry (e.tiles.getD j default).client
                 (e.tiles.getD j default).geometry]) := by
  have hne : ¬((d.getClientGeometry (e.tiles.getD j default).client).x
        = (e.tiles.getD j default).geometry.x ∧
      (d.getClientGeometry (e.tiles.getD j default).client).y
        = (e.tiles.getD j default).geometry.y ∧
      (d.getClientGeometry (e.tiles.getD j default).client).width
        = (e.tiles.getD j default).geometry.width ∧
      (d.getClientGeometry (e.tiles.getD j default).client).height
        = (e.tiles.getD j default).geometry.height) := by
    intro hcon
    exact hg (rect_eq_iff.mpr hcon)
  by_cases h5 : (e.tiles.getD j default).arrangeCount + 1 > 5 <;>
    simp [arrangeClient, hj, hfl, hfs, applyTileGeometry, hne, h5,
      -List.getD_eq_getElem?_getD]

/-! ## Claim C10 -/

/-- C10: with an empty screen list no active screen resolves (not even the
first-screen fallback), and `handleUserInput` returns immediately: the
engine state is unchanged and no adapter command (in particular no geometry
write) is issued, for every input. -/
theorem handleUserInput_noop_of_no_screens (d : Driver) (lops : LayoutOps)
    (e : TilingEngine) (input : UserInput) (h : e.screens = []) :
    handleUserInput d lops e input = (e, []) := by
  simp [handleUserInput, getActiveScreen, activeScreenIdx, h]

/-- Witness for C10 at a concrete screenless engine. -/
theorem handleUserInput_noop_of_no_screens_witness :
    handleUserInput d0 lops0 { emptyEngine with tiles := [tT] } .SetMaster
      = ({ emptyEngine with tiles := [tT] }, []) :=
  handleUserInput_noop_of_no_screens d0 lops0 { emptyEngine with tiles := [tT] }
    .SetMaster rfl

/-! ## Claim C5 -/

/-- C5: when some rule matches the window's adapter-reported class name with
`ignore = true`, `manageClient` returns `false`, creates no tile, leaves the
engine unchanged and issues no command — regardless of any other matching
rules. -/
theorem manageClient_ignore_rejects (d : Driver) (lops : LayoutOps)
    (e : TilingEngine) (c : Nat)
    (h : ∃ r ∈ e.rules, r.className = some (d.getClientClassName c) ∧ r.ignore = true) :
    manageClient d lops e c = (false, e, []) := by
  have hany : e.rules.any
      (fun r => decide (r.className = some (d.getClientClassName c)) && r.ignore) = true := by
    obtain ⟨r, hr, h1, h2⟩ := h
    exact List.any_eq_true.mpr ⟨r, hr, by simp [h1, h2]⟩
  simp [manageClient, hany]

/-- Witness for C5: class `"term"` matches both a floating rule and an
ignore rule of `e5`; the window is rejected. -/
theorem manageClient_ignore_rejects_witness :
    manageClient d0 lops0 e5 5 = (false, e5, []) :=
  manageClient_ignore_rejects d0 lops0 e5 5
    ⟨mkRule "term" true false, by decide, by decide, by decide⟩

/-! ## Claim C3 (corrected) -/

/-- Counterexample to C3: window 3 is tracked, non-floating, not
full-screen, and its live geometry `rLive` differs from the stored target
`rTarget`; yet `arrangeClient` leaves the retry counter at `3 + 1 = 4` — it
increments the counter (`isUpdated = false`) instead of resetting it to
zero as the claim states. -/
theorem arrangeClient_reset_counterexample :
    t3.floating = false ∧
    d0.isClientFullScreen 3 = false ∧
    d0.getClientGeometry 3 ≠ t3.geometry ∧
    (arrangeClient d0 e3 3).1.tiles.map Tile.arrangeCount = [4] ∧
    ¬((arrangeClient d0 e3 3).1.tiles.map Tile.arrangeCount = [0]) := by
  decide

/-- C3 (amended): for every tracked, non-floating, non-full-screen window
whose live adapter geometry differs from its tile's stored target geometry,
`arrangeClient` performs the reconciliation write with `isUpdated = false`:
it increments the tile's loop-guard counter (it is the full `arrange` pass
that passes `isUpdated = true`), and issues the write only while the
incremented counter has not exceeded 5. -/
theorem arrangeClient_increments_counter (d : Driver) (e : TilingEngine)
    (c j : Nat)
    (hj : findTileIdx c e.tiles = some j)
    (hfl : (e.tiles.getD j default).floating = false)
    (hfs : d.isClientFullScreen (e.tiles.getD j default).client = false)
    (hg : d.getClientGeometry (e.tiles.getD j default).client
        ≠ (e.tiles.getD j default).geometry) :
    arrangeClient d e c
      = ({ e with tiles := e.tiles.set j ({ e.tiles.getD j default with
            arrangeCount := (e.tiles.getD j default).arrangeCount + 1 }) },
         if (e.tiles.getD j default).arrangeCount + 1 > 5 then []
         else [Cmd.setGeometry (e.tiles.getD j default).client
                 (e.tiles.getD j default).geometry]) :=
  arrangeClient_step d e c j hj hfl hfs hg

/-- Witness for C3's amended theorem at the concrete fixture: the counter
goes from 3 to 4 and the write is issued. -/
theorem arrangeClient_increments_counter_witness :
    arrangeClient d0 e3 3
      = ({ e3 with tiles := [{ t3 with arrangeCount := 4 }] },
         [Cmd.setGeometry 3 rTarget]) := by
  rw [arrangeClient_increments_counter d0 e3 3 0 (by decide) (by decide)
    (by decide) (by decide)]
  decide

/-! ## Claim C4 (corrected) -/

/-- Counterexample to C4: tile `t4` has `isError = true`, yet — because the
adapter's visibility check for its window succeeds and returns `true` — the
visible-set computation includes it, and the arrange pass even issues a
geometry write for it.  The `isError` flag does not exclude a tile from
subsequent visible sets. -/
theorem isError_reincluded_counterexample :
    t4.isError = true ∧
    d0.isClientVisible t4.client s0.id = some true ∧
    (visPass d0 (some s0) e4.tiles).2 = [0] ∧
    (arrange d0 lops0 e4).2 = [Cmd.setGeometry 4 rTarget, Cmd.keepBelow 4 true] := by
  decide

/-- C4 (amended): a fault in the adapter visibility check marks the tile
`isError` and excludes it from the visible set of the pass in which the
fault occurred, and `isError` tiles are removed by the next
`unmanageClient`; but the flag itself is never consulted when computing
visible sets — inclusion is re-decided from the adapter response each time,
so a tile whose later checks succeed with `true` is included again. -/
theorem isError_fault_semantics (d : Driver) (lops : LayoutOps) (scr : Screen) :
    (∀ t, d.isClientVisible t.client scr.id = none →
        tileVisCheck d (some scr) t = (false, { t with isError := true })) ∧
    (∀ t b, d.isClientVisible t.client scr.id = some b →
        tileVisCheck d (some scr) t = (b, t)) ∧
    (∀ (tiles : List Tile) (i : Nat), i < tiles.length →
        d.isClientVisible (tiles.getD i default).client scr.id = none →
        i ∉ (visPass d (some scr) tiles).2) ∧
    (∀ (tiles : List Tile) (i : Nat), i < tiles.length →
        d.isClientVisible (tiles.getD i default).client scr.id = some true →
        i ∈ (visPass d (some scr) tiles).2) ∧
    (∀ (e : TilingEngine) (c : Nat),
        (unmanageClient d lops e c).1.tiles.map tkey
          = (e.tiles.filter (fun t => !(t.client == c) && !t.isError)).map tkey) := by
  refine ⟨?_, ?_, ?_, ?_, ?_⟩
  · intro t h; simp [tileVisCheck, h]
  · intro t b h; simp [tileVisCheck, h]
  · intro tiles i hi h
    rw [List.getD_eq_getElem?_getD] at h
    simp [visPass, List.mem_filter, List.mem_range, tileVisCheck, h]
  · intro tiles i hi h
    rw [List.getD_eq_getElem?_getD, List.getElem?_eq_getElem hi] at h
    simp only [Option.getD_some] at h
    simp [visPass, List.mem_filter, List.mem_range, tileVisCheck, h, hi]
  · intro e c
    unfold unmanageClient
    simp only
    exact arrange_tkey d lops _

/-- Witness for C4's amended theorem: a faulting check marks and excludes
the tile, a succeeding check includes an `isError` tile, and unmanaging
removes error tiles. -/
theorem isError_fault_semantics_witness :
    tileVisCheck dFault (some s0) t5f = (false, { t5f with isError := true }) ∧
    0 ∉ (visPass dFault (some s0) [t5f]).2 ∧
    0 ∈ (visPass dFault (some s0) [t4]).2 ∧
    (unmanageClient dFault lops0
        { emptyEngine with screens := [s0], tiles := [tT, t4] } 9).1.tiles.map tkey
      = [(3, false)] := by
  obtain ⟨h1, h2, h3, h4, h5⟩ := isError_fault_semantics dFault lops0 s0
  refine ⟨h1 t5f (by decide), h3 [t5f] 0 (by decide) (by decide),
    h4 [t4] 0 (by decide) (by decide), ?_⟩
  rw [h5 { emptyEngine with screens := [s0], tiles := [tT, t4] } 9]
  decide

/-! ## Claim C6 -/

theorem take_set_of_le {l : List α} {i n : Nat} (h : n ≤ i) (a : α) :
    (l.set i a).take n = l.take n := by
  induction l generalizing i n with
  | nil => simp
  | cons x xs ih =>
    cases i with
    | zero =>
      have : n = 0 := Nat.le_zero.mp h
      subst this
      simp
    | succ m =>
      cases n with
      | zero => simp
      | succ k =>
        simp only [List.set_cons_succ, List.take_succ_cons]
        rw [ih (Nat.le_of_succ_le_succ h)]

theorem drop_set_self {l : List α} {i : Nat} (h : i < l.length) (a : α) :
    (l.set i a).drop i = a :: l.drop (i + 1) := by
  induction l generalizing i with
  | nil => simp at h
  | cons x xs ih =>
    cases i with
    | zero => simp
    | succ m =>
      simp only [List.set_cons_succ, List.drop_succ_cons]
      exact ih (by simpa using h)

theorem getD_take {l : List α} {k n : Nat} (h : k < n) (d : α) :
    (l.take n).getD k d = l.getD k d := by
  simp [List.getD_eq_getElem?_getD, List.getElem?_take, h]

theorem getD_drop (l : List α) (n k : Nat) (d : α) :
    (l.drop n).getD k d = l.getD (n + k) d := by
  simp [List.getD_eq_getElem?_getD, List.getElem?_drop]

/-- Closed form of the `setMaster` shift loop: entry 0 is still the old
head, entries `1..n` hold the old entries `0..n-1`, the rest is
unchanged. -/
theorem shiftRight_eq {l : List Tile} {n : Nat} (h : n < l.length) :
    shiftRight l n = l.getD 0 default :: (l.take n ++ l.drop (n + 1)) := by
  induction n generalizing l with
  | zero =>
    cases l with
    | nil => simp at h
    | cons x xs => simp [shiftRight]
  | succ m ih =>
    rw [shiftRight]
    have hlen : m < (l.set (m + 1) (l.getD m default)).length := by
      simp only [List.length_set]; omega
    rw [ih hlen]
    have hm : m < l.length := by omega
    rw [getD_set_ne (by omega) _ _, take_set_of_le (Nat.le_succ m),
      drop_set_self h]
    simp only [List.getD_eq_getElem?_getD, List.getElem?_eq_getElem hm,
      Option.getD_some]
    have hts : List.take (m + 1) l = List.take m l ++ [l[m]] := by
      rw [List.take_succ, List.getElem?_eq_getElem hm]
      rfl
    rw [hts, List.append_assoc]
    rfl

theorem firstIdx_some_getD {p : α → Bool} {l : List α} {j : Nat} (d : α)
    (h : firstIdx p l = some j) : p (l.getD j d) = true := by
  induction l generalizing j with
  | nil => simp at h
  | cons x xs ih =>
    simp only [firstIdx_cons] at h
    by_cases hx : p x
    · simp [hx] at h
      rw [← h]
      simpa using hx
    · simp [hx] at h
      obtain ⟨i, hi, rfl⟩ := h
      simp only [List.getD_cons_succ]
      exact ih hi

/-- C6: `setMaster` is a no-op when the focused window resolves to no tile
or to the tile already at global index 0; otherwise the focused tile
(resolved at index `i`) moves to index 0, every preceding tile shifts down
by exactly one position, every following tile stays in place, and the
relative order of all tiles other than the focused one is preserved
(removing the moved element from old and new lists gives the same list). -/
theorem setMaster_spec (d : Driver) (e : TilingEngine) :
    (findTileIdx d.activeClient e.tiles = none → setMaster d e = e) ∧
    (findTileIdx d.activeClient e.tiles = some 0 → setMaster d e = e) ∧
    (∀ i, findTileIdx d.activeClient e.tiles = some i → i ≠ 0 →
      (setMaster d e).tiles
          = e.tiles.getD i default :: (e.tiles.take i ++ e.tiles.drop (i + 1)) ∧
      (setMaster d e).tiles.getD 0 default = e.tiles.getD i default ∧
      (∀ k, k < i → (setMaster d e).tiles.getD (k + 1) default
          = e.tiles.getD k default) ∧
      (∀ k, i < k → k < e.tiles.length →
          (setMaster d e).tiles.getD k default = e.tiles.getD k default) ∧
      (setMaster d e).tiles.eraseIdx 0 = e.tiles.eraseIdx i) := by
  refine ⟨?_, ?_, ?_⟩
  · intro h; simp [setMaster, h]
  · intro h; simp [setMaster, h]
  · intro i hi hne
    have hlen : i < e.tiles.length := firstIdx_some_lt hi
    have hmain : (setMaster d e).tiles
        = e.tiles.getD i default :: (e.tiles.take i ++ e.tiles.drop (i + 1)) := by
      simp only [setMaster, hi, hne, if_false]
      rw [shiftRight_eq hlen, List.set_cons_zero]
    have hti : (e.tiles.take i).length = i := by
      simp [List.length_take]
      omega
    refine ⟨hmain, by rw [hmain]; simp, ?_, ?_, ?_⟩
    · intro k hk
      rw [hmain, List.getD_cons_succ,
        getD_append_left (by omega) default, getD_take hk]
    · intro k hik hk
      obtain ⟨m, rfl⟩ : ∃ m, k = m + 1 := ⟨k - 1, by omega⟩
      rw [hmain, List.getD_cons_succ]
      rw [show m = (e.tiles.take i).length + (m - i) by rw [hti]; omega]
      rw [getD_append_right, getD_drop]
      congr 1
      omega
    · rw [hmain, List.eraseIdx_cons_zero, List.eraseIdx_eq_take_drop_succ]

/-- Witness for C6 at a concrete engine: the focused tile (window 3, at
index 2) moves to the front and the other two tiles keep their relative
order. -/
theorem setMaster_spec_witness :
    (setMaster d0 e8).tiles = [tT, tV, tU] := by
  have h := (setMaster_spec d0 e8).2.2 2 (by decide) (by decide)
  rw [h.1]
  decide

/-! ## Claim C2 -/

/-- C2: if the adapter never reports a live geometry equal to the tile's
stored target (and the window stays tracked, non-floating and not
full-screen), then repeated invocations of `arrangeClient` on that window —
starting with retry counter 0 — issue the geometry write on the first five
invocations only: invocation `n+1` writes iff `n < 5`, so from the 6th
invocation onward (counter beyond the fixed threshold 5) no further write
is issued. -/
theorem arrangeClient_loop_guard (ds : Nat → Driver) (c : Nat)
    (e : TilingEngine) (j : Nat)
    (hj : findTileIdx c e.tiles = some j)
    (h0 : (e.tiles.getD j default).arrangeCount = 0)
    (hfl : (e.tiles.getD j default).floating = false)
    (hfs : ∀ n, (ds n).isClientFullScreen c = false)
    (hg : ∀ n, (ds n).getClientGeometry c ≠ (e.tiles.getD j default).geometry) :
    ∀ n, (n < 5 → arrangeClientCmds ds c e n
            = [Cmd.setGeometry c (e.tiles.getD j default).geometry]) ∧
         (5 ≤ n → arrangeClientCmds ds c e n = []) := by
  have hjl : j < e.tiles.length := firstIdx_some_lt hj
  have tcl : (e.tiles.getD j default).client = c := by
    have h := firstIdx_some_getD default hj
    simpa using h
  have hstep : ∀ n : Nat,
      arrangeClient (ds n)
        { e with tiles := e.tiles.set j ({ e.tiles.getD j default with
            arrangeCount := n }) } c
      = ({ e with tiles := e.tiles.set j ({ e.tiles.getD j default with
            arrangeCount := n + 1 }) },
         if n + 1 > 5 then []
         else [Cmd.setGeometry c (e.tiles.getD j default).geometry]) := by
    intro n
    have hget : (e.tiles.set j
          ({ e.tiles.getD j default with arrangeCount := n })).getD j default
        = { e.tiles.getD j default with arrangeCount := n } :=
      getD_set_self hjl _ _
    have hfind : findTileIdx c
        (e.tiles.set j ({ e.tiles.getD j default with arrangeCount := n }))
          = some j := by
      show firstIdx (fun t : Tile => t.client == c) _ = some j
      exact firstIdx_set_of_found hj (by simp [tcl, -List.getD_eq_getElem?_getD])
    have happ := arrangeClient_step (ds n)
      { e with tiles := e.tiles.set j ({ e.tiles.getD j default with
          arrangeCount := n }) } c j
      hfind
      (by show ((e.tiles.set j ({ e.tiles.getD j default with
            arrangeCount := n })).getD j default).floating = false
          rw [hget]
          exact hfl)
      (by show (ds n).isClientFullScreen ((e.tiles.set j
            ({ e.tiles.getD j default with
                arrangeCount := n })).getD j default).client = false
          rw [hget]
          have hcl : ({ e.tiles.getD j default with
              arrangeCount := n } : Tile).client = c := tcl
          rw [hcl]
          exact hfs n)
      (by show (ds n).getClientGeometry ((e.tiles.set j
            ({ e.tiles.getD j default with
                arrangeCount := n })).getD j default).client
            ≠ ((e.tiles.set j ({ e.tiles.getD j default with
                arrangeCount := n })).getD j default).geometry
          rw [hget]
          have hcl : ({ e.tiles.getD j default with
              arrangeCount := n } : Tile).client = c := tcl
          rw [hcl]
          exact hg n)
    rw [happ]
    dsimp only
    rw [hget, List.set_set, tcl]
  have inv : ∀ n, arrangeClientIter ds c e n
      = { e with tiles := e.tiles.set j ({ e.tiles.getD j default with
          arrangeCount := n }) } := by
    intro n
    induction n with
    | zero =>
      have ht0 : ({ e.tiles.getD j default with arrangeCount := 0 } : Tile)
          = e.tiles.getD j default := by
        rw [← h0]
      show e = _
      rw [ht0, set_getD_self hjl default]
    | succ n ihn =>
      show (arrangeClient (ds n) (arrangeClientIter ds c e n) c).1 = _
      rw [ihn, hstep n]
  intro n
  have hc : arrangeClientCmds ds c e n
      = if n + 1 > 5 then []
        else [Cmd.setGeometry c (e.tiles.getD j default).geometry] := by
    show (arrangeClient (ds n) (arrangeClientIter ds c e n) c).2 = _
    rw [inv n, hstep n]
  constructor
  · intro hn
    rw [hc, if_neg (by omega)]
  · intro hn
    rw [hc, if_pos (by omega)]

/-- Witness for C2 at a constant adapter that always reports live geometry
`rLive` against target `rTarget`: the 1st invocation writes, the 6th and
8th do not. -/
theorem arrangeClient_loop_guard_witness :
    arrangeClientCmds (fun _ => d0) 3 eC2 0 = [Cmd.setGeometry 3 rTarget] ∧
    arrangeClientCmds (fun _ => d0) 3 eC2 5 = [] ∧
    arrangeClientCmds (fun _ => d0) 3 eC2 7 = [] := by
  have hfs : d0.isClientFullScreen 3 = false := by decide
  have hgeo : d0.getClientGeometry 3 ≠ (eC2.tiles.getD 0 default).geometry := by
    decide
  have h := arrangeClient_loop_guard (fun _ => d0) 3 eC2 0 (by decide)
    (by decide) (by decide) (fun _ => hfs) (fun _ => hgeo)
  exact ⟨(h 0).1 (by omega), (h 5).2 (by omega), (h 7).2 (by omega)⟩

/-! ## Claim C9 -/

theorem getD_mem {l : List α} {k : Nat} (h : k < l.length) (d : α) :
    l.getD k d ∈ l := by
  rw [List.getD_eq_getElem?_getD, List.getElem?_eq_getElem h]
  exact List.getElem_mem h

/-- In a duplicate-free list the first index of the element at position `k`
is `k` itself (the source's `indexOf` on the distinct layout objects). -/
theorem firstIdx_getD_of_nodup {l : List Nat} {k : Nat}
    (hnd : l.Nodup) (hk : k < l.length) :
    firstIdx (fun x => x == l.getD k 0) l = some k := by
  induction l generalizing k with
  | nil => simp at hk
  | cons x xs ih =>
    rcases List.nodup_cons.mp hnd with ⟨hx, hxs⟩
    cases k with
    | zero => simp
    | succ m =>
      have hm : m < xs.length := by simpa using hk
      have hne : x ≠ xs.getD m 0 := by
        intro hcon
        exact hx (hcon ▸ getD_mem hm 0)
      simp only [List.getD_cons_succ, firstIdx_cons, beq_iff_eq,
        if_neg hne, ih hxs hm]
      rfl

/-- Single application of the layout-cycling step: with duplicate-free
layouts and the active layout at index `k'`, the screen advances to index
`(k' + 1) % L`. -/
theorem cycleLayoutScreen_step (scr : Screen) (k : Nat)
    (hnd : scr.layouts.Nodup) (hk : k < scr.layouts.length)
    (hlay : scr.layout = some (scr.layouts.getD k 0)) :
    cycleLayoutScreen scr 1
      = { scr with
          layout := some (scr.layouts.getD ((k + 1) % scr.layouts.length) 0) } := by
  have hL : 0 < scr.layouts.length := Nat.lt_of_le_of_lt (Nat.zero_le k) hk
  have hmod : (k + 1) % scr.layouts.length < scr.layouts.length :=
    Nat.mod_lt _ hL
  unfold cycleLayoutScreen
  rw [hlay]
  simp only [firstIdx_getD_of_nodup hnd hk]
  have htm : ((k : Int) + 1).tmod (scr.layouts.length : Int)
      = (((k + 1) % scr.layouts.length : Nat) : Int) := by
    have hcast : ((k : Int) + 1) = ((k + 1 : Nat) : Int) := by push_cast; ring
    rw [hcast, Int.ofNat_tmod]
  rw [htm]
  have hcond : (0 : Int) ≤ (((k + 1) % scr.layouts.length : Nat) : Int) ∧
      (((k + 1) % scr.layouts.length : Nat) : Int) < (scr.layouts.length : Int) := by
    constructor
    · exact Int.ofNat_nonneg _
    · exact_mod_cast hmod
  rw [if_pos hcond, Int.toNat_natCast]

/-- `activeScreenIdx` only inspects the screen list. -/
theorem activeScreenIdx_congr (d : Driver) {e₁ e₂ : TilingEngine}
    (h : e₁.screens = e₂.screens) :
    activeScreenIdx d e₁ = activeScreenIdx d e₂ := by
  unfold activeScreenIdx
  rw [h]

theorem activeScreenIdx_lt {d : Driver} {e : TilingEngine} {i : Nat}
    (h : activeScreenIdx d e = some i) : i < e.screens.length := by
  unfold activeScreenIdx at h
  cases hf : firstIdx (fun s => s.id == d.activeClientScreen) e.screens with
  | some m =>
    rw [hf] at h
    cases h
    exact firstIdx_some_lt hf
  | none =>
    rw [hf] at h
    by_cases he : e.screens.isEmpty
    · simp [he] at h
    · simp [he] at h
      subst h
      cases hscr : e.screens with
      | nil => rw [hscr] at he; simp at he
      | cons s ss => simp [hscr]

theorem firstIdx_set_congr {p : α → Bool} {l : List α} {i : Nat} {b : α}
    [Inhabited α] (h : p b = p (l.getD i default)) :
    firstIdx p (l.set i b) = firstIdx p l := by
  induction l generalizing i with
  | nil => simp
  | cons x xs ih =>
    cases i with
    | zero =>
      simp only [List.set_cons_zero, firstIdx_cons]
      rw [show p b = p x from h]
    | succ m =>
      simp only [List.set_cons_succ, firstIdx_cons]
      rw [ih (by simpa using h)]

theorem isEmpty_set (l : List α) (i : Nat) (a : α) :
    (l.set i a).isEmpty = l.isEmpty := by
  cases l <;> cases i <;> simp

/-- `cycleLayout` when an active screen resolves: that screen is replaced by
its cycled version. -/
theorem cycleLayout_resolved (d : Driver) (e : TilingEngine) (i : Nat)
    (h : activeScreenIdx d e = some i) :
    cycleLayout d e 1
      = { e with
          screens := e.screens.set i
            (cycleLayoutScreen (e.screens.getD i default) 1) } := by
  unfold cycleLayout
  rw [h]

/-- C9: each `CycleLayout` application advances the active screen's layout
to the next entry of its `layouts` list with wrap-around (for the
duplicate-free layout lists the engine constructs), and applying the
engine-level forward cycle `L` times, where `L` is the length of the active
screen's layouts list, returns its active layout to the original one. -/
theorem cycleLayout_period (d : Driver) (e : TilingEngine) (si k : Nat)
    (hsi : activeScreenIdx d e = some si)
    (hnd : (e.screens.getD si default).layouts.Nodup)
    (hk : k < (e.screens.getD si default).layouts.length)
    (hlay : (e.screens.getD si default).layout
        = some ((e.screens.getD si default).layouts.getD k 0)) :
    (∀ (scr : Screen) (m : Nat), scr.layouts.Nodup → m < scr.layouts.length →
        scr.layout = some (scr.layouts.getD m 0) →
        (cycleLayoutScreen scr 1).layout
          = some (scr.layouts.getD ((m + 1) % scr.layouts.length) 0)) ∧
    (((fun e' => cycleLayout d e' 1)^[(e.screens.getD si default).layouts.length]
        e).screens.getD si default).layout
      = (e.screens.getD si default).layout := by
  constructor
  · intro scr m hnd' hm hlay'
    rw [cycleLayoutScreen_step scr m hnd' hm hlay']
  · have hsl : si < e.screens.length := activeScreenIdx_lt hsi
    have hL : 0 < (e.screens.getD si default).layouts.length :=
      Nat.lt_of_le_of_lt (Nat.zero_le k) hk
    have inv : ∀ m, ((fun e' => cycleLayout d e' 1)^[m] e).screens
        = e.screens.set si ({ e.screens.getD si default with
            layout := some ((e.screens.getD si default).layouts.getD
              ((k + m) % (e.screens.getD si default).layouts.length) 0) }) := by
      intro m
      induction m with
      | zero =>
        have h1 : ({ e.screens.getD si default with
            layout := some ((e.screens.getD si default).layouts.getD
              ((k + 0) % (e.screens.getD si default).layouts.length) 0) } : Screen)
            = e.screens.getD si default := by
          rw [Nat.add_zero, Nat.mod_eq_of_lt hk, ← hlay]
        rw [Function.iterate_zero_apply, h1, set_getD_self hsl default]
      | succ m ihm =>
        rw [Function.iterate_succ_apply']
        have hstab : activeScreenIdx d ((fun e' => cycleLayout d e' 1)^[m] e)
            = some si := by
          have hsi0 := hsi
          unfold activeScreenIdx at hsi0 ⊢
          rw [ihm, firstIdx_set_congr (by simp), isEmpty_set]
          exact hsi0
        show (cycleLayout d ((fun e' => cycleLayout d e' 1)^[m] e) 1).screens = _
        rw [cycleLayout_resolved _ _ _ hstab]
        dsimp only
        rw [ihm, getD_set_self hsl, List.set_set]
        rw [cycleLayoutScreen_step
          ({ e.screens.getD si default with
              layout := some ((e.screens.getD si default).layouts.getD
                ((k + m) % (e.screens.getD si default).layouts.length) 0) })
          ((k + m) % (e.screens.getD si default).layouts.length)
          hnd (Nat.mod_lt _ hL) rfl]
        have hidx : ((k + m) % (e.screens.getD si default).layouts.length + 1)
              % (e.screens.getD si default).layouts.length
            = (k + (m + 1)) % (e.screens.getD si default).layouts.length := by
          conv_lhs => rw [Nat.mod_add_mod]
          rw [Nat.add_assoc]
        dsimp only
        rw [hidx]
    rw [inv ((e.screens.getD si default).layouts.length),
      getD_set_self hsl]
    dsimp only
    rw [Nat.add_mod_right, Nat.mod_eq_of_lt hk]
    exact hlay.symm

/-- Witness for C9 at a one-screen engine with the four default layouts:
four forward cycles return the active layout to the first built-in. -/
theorem cycleLayout_period_witness :
    (((fun e' => cycleLayout d0 e' 1)^[4]
        { emptyEngine with screens := [s0] }).screens.getD 0 default).layout
      = some 0 := by
  have h := cycleLayout_period d0 { emptyEngine with screens := [s0] } 0 0
    (by decide) (by decide) (by decide) (by decide)
  exact h.2.trans (by decide)

/-! ## Claim C1 (corrected) -/

/-- Counterexample to C1: from the empty engine (no rules), calling
`manageClient` twice with the same window handle 7 produces two tiles whose
client handles are both 7 — `manageClient` never checks whether a handle is
already managed. -/
theorem manage_duplicate_counterexample :
    ((runOps emptyEngine
        [EngineOp.manage d0 lops0 7, EngineOp.manage d0 lops0 7]).tiles.map
          Tile.client)
      = [7, 7] ∧
    ¬(((runOps emptyEngine
        [EngineOp.manage d0 lops0 7, EngineOp.manage d0 lops0 7]).tiles.map
          Tile.client).Nodup) := by
  decide

/-- `setFloat` never changes the `client` handle of a tile. -/
theorem setFloat_client (d : Driver) (t : Tile) (v : FloatVal)
    (g : Option Rect) : (setFloat d t v g).1.client = t.client := by
  cases v with
  | val b =>
    by_cases hb : t.floating = b
    · simp [setFloat, hb]
    · rw [setFloat, if_neg hb]
      unfold setFloatCore
      split <;> rfl
  | toggle =>
    rw [setFloat]
    unfold setFloatCore
    split <;> rfl

/-- C1 (amended): along every sequence of `manageClient`/`unmanageClient`
operations (any rule list, any adapter responses and layouts per step) in
which `manageClient` is never invoked for a handle currently in the tile
list, duplicate-freeness of the tiles' client handles is preserved — in
particular, starting from the empty engine the tile list never contains two
tiles with identical client handles.  (The freshness proviso is necessary:
managing an already-managed handle duplicates it, see the
counterexample.) -/
theorem runOps_nodup_clients (ops : List EngineOp) (e : TilingEngine)
    (hn : (e.tiles.map Tile.client).Nodup)
    (hf : freshOps e ops = true) :
    ((runOps e ops).tiles.map Tile.client).Nodup := by
  induction ops generalizing e with
  | nil => exact hn
  | cons op ops ih =>
    rw [runOps]
    cases op with
    | manage d lops c =>
      rw [freshOps, Bool.and_eq_true] at hf
      obtain ⟨h1, h2⟩ := hf
      refine ih _ ?_ h2
      have hc : c ∉ e.tiles.map Tile.client := by simpa using h1
      show ((manageClient d lops e c).2.1.tiles.map Tile.client).Nodup
      unfold manageClient
      by_cases hig : e.rules.any
          (fun r => decide (r.className = some (d.getClientClassName c)) && r.ignore)
      · simpa [hig] using hn
      · simp only [hig, Bool.false_eq_true, if_false]
        rw [arrange_clients]
        dsimp only
        rw [List.map_append]
        have htf : List.map Tile.client
            [(if e.rules.any (fun r =>
                  decide (r.className = some (d.getClientClassName c)) && r.floating)
                then setFloat d (mkTile c (d.getClientGeometry c)) (.val true) none
                else (mkTile c (d.getClientGeometry c), [])).1]
            = [c] := by
          split
          · rw [List.map_cons, List.map_nil, setFloat_client]
            rfl
          · rfl
        rw [htf]
        simp [List.nodup_append, hn, hc]
    | unmanage d lops c =>
      rw [freshOps] at hf
      refine ih _ ?_ hf
      show ((unmanageClient d lops e c).1.tiles.map Tile.client).Nodup
      unfold unmanageClient
      simp only
      rw [arrange_clients]
      exact ((List.filter_sublist _).map _).nodup hn

/-- Witness for C1's amended theorem: manage 7, manage 8, unmanage 7 — a
fresh sequence — yields a duplicate-free client list. -/
theorem runOps_nodup_clients_witness :
    ((runOps emptyEngine [EngineOp.manage d0 lops0 7,
        EngineOp.manage d0 lops0 8,
        EngineOp.unmanage d0 lops0 7]).tiles.map Tile.client).Nodup :=
  runOps_nodup_clients [EngineOp.manage d0 lops0 7, EngineOp.manage d0 lops0 8,
    EngineOp.unmanage d0 lops0 7] emptyEngine (by decide) (by decide)

/-! ## Claim C7 -/

theorem applyTileGeometry_client (d : Driver) (t : Tile) (u : Bool) :
    (applyTileGeometry d t u).1.client = t.client :=
  congrArg Prod.fst (applyTileGeometry_tkey d t u)

theorem applyTileGeometry_floating (d : Driver) (t : Tile) (u : Bool) :
    (applyTileGeometry d t u).1.floating = t.floating :=
  congrArg Prod.snd (applyTileGeometry_tkey d t u)

/-- The only command `applyTileGeometry` can emit is the geometry write for
its own tile. -/
theorem applyTileGeometry_cmds (d : Driver) (t : Tile) (u : Bool) {cmd : Cmd}
    (h : cmd ∈ (applyTileGeometry d t u).2.toList) :
    cmd = Cmd.setGeometry t.client t.geometry := by
  by_cases hg : (d.getClientGeometry t.client).x = t.geometry.x ∧
      (d.getClientGeometry t.client).y = t.geometry.y ∧
      (d.getClientGeometry t.client).width = t.geometry.width ∧
      (d.getClientGeometry t.client).height = t.geometry.height
  · simp [applyTileGeometry, hg] at h
  · by_cases hc : (if u then 0 else t.arrangeCount + 1) > 5
    · simp [applyTileGeometry, hg, hc] at h
    · simp [applyTileGeometry, hg, hc] at h
      exact h

theorem length_eq_of_map_tkey {l l' : List Tile}
    (h : l.map tkey = l'.map tkey) : l.length = l'.length := by
  have := congrArg List.length h
  simpa using this

theorem tkey_getD_of_map_eq {l l' : List Tile}
    (h : l.map tkey = l'.map tkey) (i : Nat) :
    tkey (l.getD i default) = tkey (l'.getD i default) := by
  have h2 := congrArg (fun L => L.getD i (tkey default)) h
  simpa [getD_map] using h2

theorem mem_of_map_tkey_eq {l l' : List Tile}
    (h : l'.map tkey = l.map tkey) {t' : Tile} (ht : t' ∈ l') :
    ∃ t ∈ l, tkey t = tkey t' := by
  have : tkey t' ∈ l.map tkey := h ▸ List.mem_map_of_mem tkey ht
  obtain ⟨t, htl, heq⟩ := List.mem_map.mp this
  exact ⟨t, htl, heq⟩

/-- Any geometry write emitted by the reconciliation loop targets one of the
given positions, all of which hold non-floating tiles. -/
theorem reconcileGo_writes (d : Driver) {tiles : List Tile} {is : List Nat}
    (hlt : ∀ i ∈ is, i < tiles.length)
    (hfl : ∀ i ∈ is, (tiles.getD i default).floating = false)
    {c : Nat} {g : Rect}
    (hmem : Cmd.setGeometry c g ∈ (reconcileGo d tiles is).2) :
    ∃ t ∈ tiles, t.client = c ∧ t.floating = false := by
  induction is generalizing tiles with
  | nil => simp [reconcileGo] at hmem
  | cons i is ih =>
    rw [reconcileGo] at hmem
    simp only [List.append_assoc, List.mem_append, List.mem_cons,
      List.not_mem_nil, or_false] at hmem
    rcases hmem with h | h | h
    · have heq := applyTileGeometry_cmds d (tiles.getD i default) true h
      have hi : i < tiles.length := hlt i (List.mem_cons_self i is)
      refine ⟨tiles.getD i default, getD_mem hi default, ?_, ?_⟩
      · cases heq; rfl
      · exact hfl i (List.mem_cons_self i is)
    · cases h
    · have hlt' : ∀ i' ∈ is,
          i' < (tiles.set i (applyTileGeometry d (tiles.getD i default) true).1).length := by
        intro i' hi'
        rw [List.length_set]
        exact hlt i' (List.mem_cons_of_mem i hi')
      have hfl' : ∀ i' ∈ is,
          ((tiles.set i (applyTileGeometry d (tiles.getD i default) true).1).getD
            i' default).floating = false := by
        intro i' hi'
        by_cases hii : i = i'
        · subst hii
          by_cases hi : i < tiles.length
          · rw [getD_set_self hi]
            rw [applyTileGeometry_floating]
            exact hfl i (List.mem_cons_self i is)
          · rw [List.set_eq_of_length_le (by omega)]
            exact hfl i (List.mem_cons_of_mem i hi')
        · rw [getD_set_ne hii]
          exact hfl i' (List.mem_cons_of_mem i hi')
      obtain ⟨t', ht', hc', hf'⟩ := ih hlt' hfl' h
      rcases List.mem_or_eq_of_mem_set ht' with hmem' | heq'
      · exact ⟨t', hmem', hc', hf'⟩
      · subst heq'
        have hi : i < tiles.length := hlt i (List.mem_cons_self i is)
        refine ⟨tiles.getD i default, getD_mem hi default, ?_, ?_⟩
        · rw [← applyTileGeometry_client d (tiles.getD i default) true]
          exact hc'
        · rw [← applyTileGeometry_floating d (tiles.getD i default) true]
          exact hf'

/-- Any geometry write emitted by one screen's arrangement targets a
non-floating tile of the input list (up to the fields `arrange` mutates). -/
theorem arrangeScreen_writes (d : Driver) (lops : LayoutOps) (scr : Screen)
    {tiles : List Tile} {c : Nat} {g : Rect}
    (hmem : Cmd.setGeometry c g ∈ (arrangeScreen d lops scr tiles).2) :
    ∃ t ∈ tiles, t.client = c ∧ t.floating = false := by
  unfold arrangeScreen at hmem
  cases hl : scr.layout with
  | none =>
    rw [hl] at hmem
    simp at hmem
  | some lay =>
    rw [hl] at hmem
    dsimp only at hmem
    set tiles₁ := (visPass d (some scr) tiles).1 with htiles₁
    have htk1 : tiles₁.map tkey = tiles.map tkey := visPass_tkey d (some scr) tiles
    set vis := (visPass d (some scr) tiles).2 with hvis
    set visibles := vis.filter
      (fun i => !(d.isClientFullScreen ((tiles₁.getD i default).client)))
      with hvisibles
    set tileables := visibles.filter
      (fun i => !((tiles₁.getD i default).floating)) with htileables
    set geos := lops.apply lay (tileables.map (fun i => tiles₁.getD i default))
      (d.getWorkingArea scr.id) with hgeos
    set tiles₂ := layoutApplyGeos tiles₁ tileables geos with htiles₂
    have htk2 : tiles₂.map tkey = tiles₁.map tkey := layoutApplyGeos_tkey _ _ _
    have hlen2 : tiles₂.length = tiles.length :=
      length_eq_of_map_tkey (htk2.trans htk1)
    simp only [List.mem_append] at hmem
    rcases hmem with (h | h) | h
    · exfalso
      simp only [List.mem_flatMap, List.mem_cons, List.not_mem_nil, or_false] at h
      obtain ⟨i, _, hbad⟩ := h
      rcases hbad with hbad | hbad <;> cases hbad
    · have hlt : ∀ i ∈ tileables, i < tiles₂.length := by
        intro i hi
        have h1 := (List.mem_filter.mp hi).1
        have h2 := (List.mem_filter.mp h1).1
        have h3 : i ∈ List.range tiles.length := by
          rw [hvis] at h2
          exact (List.mem_filter.mp h2).1
        rw [hlen2]
        exact List.mem_range.mp h3
      have hfl : ∀ i ∈ tileables, (tiles₂.getD i default).floating = false := by
        intro i hi
        have h1 := (List.mem_filter.mp hi).2
        have hfl1 : (tiles₁.getD i default).floating = false := by
          simpa using h1
        have := congrArg Prod.snd (tkey_getD_of_map_eq htk2 i)
        simpa [tkey] using this.trans hfl1
      obtain ⟨t₂, ht₂, hc₂, hf₂⟩ := reconcileGo_writes d hlt hfl h
      obtain ⟨t, ht, hkeq⟩ := mem_of_map_tkey_eq (htk2.trans htk1) ht₂
      refine ⟨t, ht, ?_, ?_⟩
      · exact (congrArg Prod.fst hkeq).trans hc₂
      · exact (congrArg Prod.snd hkeq).trans hf₂
    · exfalso
      simp only [List.mem_map] at h
      obtain ⟨i, _, hbad⟩ := h
      cases hbad

theorem arrangeGo_writes (d : Driver) (lops : LayoutOps) (ss : List Screen)
    {tiles : List Tile} {c : Nat} {g : Rect}
    (hmem : Cmd.setGeometry c g ∈ (arrangeGo d lops ss tiles).2) :
    ∃ t ∈ tiles, t.client = c ∧ t.floating = false := by
  induction ss generalizing tiles with
  | nil => simp [arrangeGo] at hmem
  | cons s ss ih =>
    rw [arrangeGo] at hmem
    rw [List.mem_append] at hmem
    rcases hmem with h | h
    · exact arrangeScreen_writes d lops s h
    · obtain ⟨t', ht', hc', hf'⟩ := ih h
      obtain ⟨t, ht, hkeq⟩ :=
        mem_of_map_tkey_eq (arrangeScreen_tkey d lops s tiles) ht'
      exact ⟨t, ht, (congrArg Prod.fst hkeq).trans hc',
        (congrArg Prod.snd hkeq).trans hf'⟩

/-- C7: the tiling path never writes geometry for a floating tile.  Every
geometry write issued by an `arrange` pass targets the client of a
non-floating tile of the engine, and `arrangeClient` returns without any
command when the resolved tile is floating. -/
theorem tiling_writes_never_floating (d : Driver) (lops : LayoutOps)
    (e : TilingEngine) :
    (∀ c g, Cmd.setGeometry c g ∈ (arrange d lops e).2 →
        ∃ t ∈ e.tiles, t.client = c ∧ t.floating = false) ∧
    (∀ c j, findTileIdx c e.tiles = some j →
        (e.tiles.getD j default).floating = true →
        arrangeClient d e c = (e, [])) := by
  constructor
  · intro c g hmem
    unfold arrange at hmem
    exact arrangeGo_writes d lops e.screens hmem
  · intro c j hj hfl
    simp [arrangeClient, hj, hfl, -List.getD_eq_getElem?_getD]

/-- Witness for C7: in the two-tile engine `e7` the arrange pass issues its
only write for the non-floating tile (window 3), and `arrangeClient` on the
floating window 6 issues nothing. -/
theorem tiling_writes_never_floating_witness :
    (∃ t ∈ e7.tiles, t.client = 3 ∧ t.floating = false) ∧
    arrangeClient d0 e7 6 = (e7, []) := by
  have h := tiling_writes_never_floating d0 lops0 e7
  exact ⟨h.1 3 rTarget (by decide), h.2 6 1 (by decide) (by decide)⟩

/-! ## Claim C8 (corrected) -/

/-- Counterexample to C8: engine `e8` holds tiles for windows 1, 2, 3 in
that order; window 2 is invisible on the active screen, windows 1 and 3 are
visible, and window 3 is focused (so it is visible and not the earliest
visible tile).  `ShiftUp` swaps the focused tile with the nearest *earlier
visible* tile — across the invisible tile in between — turning [1, 2, 3]
into [3, 2, 1]: the tiles other than the focused one change their relative
order from [1, 2] to [2, 1], contradicting the claimed preservation of the
global order of all other tiles. -/
theorem moveTile_order_counterexample :
    dV.isClientVisible tT.client s0.id = some true ∧
    dV.isClientVisible tV.client s0.id = some true ∧
    dV.isClientVisible tU.client s0.id = some false ∧
    e8.tiles.map Tile.client = [1, 2, 3] ∧
    (moveTile dV e8 (-1)).tiles.map Tile.client = [3, 2, 1] ∧
    ((e8.tiles.filter (fun t => !(t.client == 3))).map Tile.client = [1, 2] ∧
     ((moveTile dV e8 (-1)).tiles.filter
        (fun t => !(t.client == 3))).map Tile.client = [2, 1]) := by
  decide

/-- The downward scan of `moveTile` with `step = -1`: starting strictly
between a visible position `p` and the focused position `j`, it skips the
invisible positions (whose fault-free checks leave the tiles unchanged) and
swaps positions `p` and `j`. -/
theorem moveTileLoop_scan_down (d : Driver) (scr : Option Screen) (tile : Tile)
    {tiles : List Tile} {j p : Nat}
    (hpj : p < j) (hj : j < tiles.length)
    (hvp : tileVisCheck d scr (tiles.getD p default)
        = (true, tiles.getD p default))
    (hinv : ∀ k, p < k → k < j →
        tileVisCheck d scr (tiles.getD k default)
          = (false, tiles.getD k default)) :
    ∀ fuel (i : Nat), p ≤ i → i < j → fuel > i - p →
      moveTileLoop d scr tile (-1) fuel tiles j (i : Int) (-1)
        = (tiles.set j (tiles.getD p default)).set p tile := by
  intro fuel
  induction fuel with
  | zero =>
    intro i _ _ h3
    omega
  | succ f ih =>
    intro i h1 h2 h3
    rw [moveTileLoop]
    have hb : (0 : Int) ≤ (i : Int) ∧ (i : Int) < (tiles.length : Int) :=
      ⟨by exact_mod_cast Nat.zero_le i, by exact_mod_cast Nat.lt_trans h2 hj⟩
    rw [if_pos hb]
    dsimp only
    rw [Int.toNat_natCast]
    by_cases hip : i = p
    · subst hip
      rw [hvp]
      dsimp only
      rw [if_pos rfl]
      rw [set_getD_self (show i < tiles.length by omega)]
      rw [if_pos (by decide)]
    · have hpi : p < i := by omega
      rw [hinv i hpi h2]
      dsimp only
      rw [if_neg (by simp)]
      rw [set_getD_self (show i < tiles.length by omega)]
      have hi1 : (i : Int) + -1 = ((i - 1 : Nat) : Int) := by omega
      rw [hi1]
      exact ih (i - 1) (by omega) (by omega) (by omega)

/-- The upward scan of `moveTile` with `step = +1`, symmetric to
`moveTileLoop_scan_down`. -/
theorem moveTileLoop_scan_up (d : Driver) (scr : Option Screen) (tile : Tile)
    {tiles : List Tile} {j p : Nat}
    (hjp : j < p) (hp : p < tiles.length)
    (hvp : tileVisCheck d scr (tiles.getD p default)
        = (true, tiles.getD p default))
    (hinv : ∀ k, j < k → k < p →
        tileVisCheck d scr (tiles.getD k default)
          = (false, tiles.getD k default)) :
    ∀ fuel (i : Nat), j < i → i ≤ p → fuel > p - i →
      moveTileLoop d scr tile 1 fuel tiles j (i : Int) 1
        = (tiles.set j (tiles.getD p default)).set p tile := by
  intro fuel
  induction fuel with
  | zero =>
    intro i _ _ h3
    omega
  | succ f ih =>
    intro i h1 h2 h3
    rw [moveTileLoop]
    have hb : (0 : Int) ≤ (i : Int) ∧ (i : Int) < (tiles.length : Int) :=
      ⟨by exact_mod_cast Nat.zero_le i, by exact_mod_cast Nat.lt_of_le_of_lt h2 hp⟩
    rw [if_pos hb]
    dsimp only
    rw [Int.toNat_natCast]
    by_cases hip : i = p
    · subst hip
      rw [hvp]
      dsimp only
      rw [if_pos rfl]
      rw [set_getD_self (show i < tiles.length by omega)]
      rw [if_pos (by decide)]
    · have hpi : i < p := by omega
      rw [hinv i h1 hpi]
      dsimp only
      rw [if_neg (by simp)]
      rw [set_getD_self (show i < tiles.length by omega)]
      have hi1 : (i : Int) + 1 = ((i + 1 : Nat) : Int) := by omega
      rw [hi1]
      exact ih (i + 1) (by omega) (by omega) (by omega)

theorem getD_append_cons (P : List α) (x : α) (R : List α) (d : α) :
    (P ++ x :: R).getD P.length d = x := by
  have := @getD_append_right _ P (x :: R) 0 d
  simpa using this

theorem set_append_cons (B : List α) (T : α) (C : List α) (X : α) :
    (B ++ T :: C).set B.length X = B ++ X :: C := by
  rw [List.set_append, if_neg (by omega), Nat.sub_self, List.set_cons_zero]

/-- Swapping the entries at the decomposed positions `A.length` and
`A.length + B.length + 1` (writing `X` at the later, `Y` at the earlier). -/
theorem set_set_swap (A B C : List α) (V T X Y : α) :
    ((A ++ V :: (B ++ T :: C)).set (A.length + (B.length + 1)) X).set A.length Y
      = A ++ Y :: (B ++ X :: C) := by
  rw [List.set_append, if_neg (by omega), Nat.add_sub_cancel_left,
    List.set_cons_succ, set_append_cons]
  rw [List.set_append, if_neg (by omega), Nat.sub_self, List.set_cons_zero]

/-- The same swap, writing `X` at the earlier position and `Y` at the
later. -/
theorem set_set_swap2 (A B C : List α) (T V X Y : α) :
    ((A ++ T :: (B ++ V :: C)).set A.length X).set (A.length + (B.length + 1)) Y
      = A ++ X :: (B ++ Y :: C) := by
  rw [List.set_append, if_neg (by omega), Nat.sub_self, List.set_cons_zero]
  rw [List.set_append, if_neg (by omega), Nat.add_sub_cancel_left,
    List.set_cons_succ, set_append_cons]

/-- `getTileByClient` on a decomposed list whose prefix never matches. -/
theorem firstIdx_client_decomp (active : Nat) (P : List Tile) (T : Tile)
    (C : List Tile) (hP : ∀ t ∈ P, t.client ≠ active)
    (hT : T.client = active) :
    firstIdx (fun t : Tile => t.client == active) (P ++ T :: C)
      = some P.length := by
  rw [firstIdx_append_of_none (fun a ha => by simp [hP a ha])]
  simp [hT]

/-- C8 (amended): `ShiftUp` swaps the focused tile `T` with the nearest
*earlier visible* tile `V`, across any block `B` of tiles invisible on the
active screen: globally the two swap positions and every other tile keeps
its position, and among the tiles visible on the active screen the focused
tile moves exactly one position earlier with the relative order of the
other visible tiles preserved.  The relative order of *all* other tiles is
not preserved in general: an invisible tile lying between the swapped pair
changes sides with `V` (see the counterexample).  `ShiftDown` is the
symmetric one-position-later swap. -/
theorem moveTile_shift_spec :
    (∀ (d : Driver) (e : TilingEngine) (scr : Screen) (A B C : List Tile)
        (V T : Tile),
      getActiveScreen d e = some scr →
      e.tiles = A ++ V :: (B ++ T :: C) →
      (∀ t ∈ A, t.client ≠ d.activeClient) →
      V.client ≠ d.activeClient →
      (∀ t ∈ B, t.client ≠ d.activeClient) →
      T.client = d.activeClient →
      d.isClientVisible V.client scr.id = some true →
      d.isClientVisible T.client scr.id = some true →
      (∀ t ∈ B, d.isClientVisible t.client scr.id = some false) →
      (moveTile d e (-1)).tiles = A ++ T :: (B ++ V :: C) ∧
      (moveTile d e (-1)).tiles.filter (visibleOn d scr)
        = A.filter (visibleOn d scr) ++ T :: V :: C.filter (visibleOn d scr) ∧
      e.tiles.filter (visibleOn d scr)
        = A.filter (visibleOn d scr) ++ V :: T :: C.filter (visibleOn d scr)) ∧
    (∀ (d : Driver) (e : TilingEngine) (scr : Screen) (A B C : List Tile)
        (V T : Tile),
      getActiveScreen d e = some scr →
      e.tiles = A ++ T :: (B ++ V :: C) →
      (∀ t ∈ A, t.client ≠ d.activeClient) →
      T.client = d.activeClient →
      d.isClientVisible V.client scr.id = some true →
      d.isClientVisible T.client scr.id = some true →
      (∀ t ∈ B, d.isClientVisible t.client scr.id = some false) →
      (moveTile d e 1).tiles = A ++ V :: (B ++ T :: C) ∧
      (moveTile d e 1).tiles.filter (visibleOn d scr)
        = A.filter (visibleOn d scr) ++ V :: T :: C.filter (visibleOn d scr) ∧
      e.tiles.filter (visibleOn d scr)
        = A.filter (visibleOn d scr) ++ T :: V :: C.filter (visibleOn d scr)) := by
  constructor
  · intro d e scr A B C V T hscr htiles hA hV hB hT hVvis hTvis hBvis
    have hfT : visibleOn d scr T = true := by simp [visibleOn, tileVisCheck, hTvis]
    have hfV : visibleOn d scr V = true := by simp [visibleOn, tileVisCheck, hVvis]
    have hBnil : B.filter (visibleOn d scr) = [] :=
      List.filter_eq_nil_iff.mpr
        (fun a ha => by simp [visibleOn, tileVisCheck, hBvis a ha])
    have hfind : findTileIdx d.activeClient e.tiles
        = some (A.length + (B.length + 1)) := by
      rw [htiles, show A ++ V :: (B ++ T :: C) = (A ++ V :: B) ++ T :: C by simp]
      have hP : ∀ t ∈ A ++ V :: B, t.client ≠ d.activeClient := by
        intro t ht
        rcases List.mem_append.mp ht with h | h
        · exact hA t h
        · rcases List.mem_cons.mp h with h | h
          · subst h; exact hV
          · exact hB t h
      have := firstIdx_client_decomp d.activeClient (A ++ V :: B) T C hP hT
      simpa using this
    have hlenT : e.tiles.length
        = A.length + (B.length + 1) + (C.length + 1) := by
      rw [htiles]
      simp [List.length_append, List.length_cons]
      omega
    have hgetT : e.tiles.getD (A.length + (B.length + 1)) default = T := by
      rw [htiles, show A ++ V :: (B ++ T :: C) = (A ++ V :: B) ++ T :: C by simp,
        show A.length + (B.length + 1) = (A ++ V :: B).length by simp]
      exact getD_append_cons _ _ _ _
    have hgetV : e.tiles.getD A.length default = V := by
      rw [htiles]
      exact getD_append_cons _ _ _ _
    have hmidB : ∀ k, A.length < k → k < A.length + (B.length + 1) →
        e.tiles.getD k default ∈ B := by
      intro k h1 h2
      rw [htiles, show A ++ V :: (B ++ T :: C) = (A ++ [V]) ++ (B ++ T :: C) by simp,
        show k = (A ++ [V]).length + (k - A.length - 1) by simp; omega]
      rw [getD_append_right,
        getD_append_left (show k - A.length - 1 < B.length by omega)]
      exact getD_mem (by omega) default
    have hmt : (moveTile d e (-1)).tiles = A ++ T :: (B ++ V :: C) := by
      unfold moveTile
      rw [if_neg (by decide), hfind]
      dsimp only
      rw [hscr, if_neg (by decide)]
      have hstart : ((A.length + (B.length + 1) : Nat) : Int) + (-1)
          = ((A.length + B.length : Nat) : Int) := by push_cast; ring
      rw [hstart]
      rw [moveTileLoop_scan_down d (some scr)
        (e.tiles.getD (A.length + (B.length + 1)) default)
        (show A.length < A.length + (B.length + 1) by omega)
        (by omega)
        (by rw [hgetV]; simp [tileVisCheck, hVvis])
        (by intro k h1 h2
            have hm := hmidB k h1 h2
            simp [tileVisCheck, hBvis _ hm, -List.getD_eq_getElem?_getD])
        (e.tiles.length + 1) (A.length + B.length)
        (by omega) (by omega) (by omega)]
      rw [hgetV, hgetT, htiles]
      exact set_set_swap A B C V T V T
    refine ⟨hmt, ?_, ?_⟩
    · rw [hmt]
      simp [List.filter_append, List.filter_cons, hfT, hfV, hBnil]
    · rw [htiles]
      simp [List.filter_append, List.filter_cons, hfT, hfV, hBnil]
  · intro d e scr A B C V T hscr htiles hA hT hVvis hTvis hBvis
    have hfT : visibleOn d scr T = true := by simp [visibleOn, tileVisCheck, hTvis]
    have hfV : visibleOn d scr V = true := by simp [visibleOn, tileVisCheck, hVvis]
    have hBnil : B.filter (visibleOn d scr) = [] :=
      List.filter_eq_nil_iff.mpr
        (fun a ha => by simp [visibleOn, tileVisCheck, hBvis a ha])
    have hfind : findTileIdx d.activeClient e.tiles = some A.length := by
      rw [htiles]
      exact firstIdx_client_decomp d.activeClient A T (B ++ V :: C) hA hT
    have hlenT : e.tiles.length
        = A.length + (B.length + 1) + (C.length + 1) := by
      rw [htiles]
      simp [List.length_append, List.length_cons]
      omega
    have hgetT : e.tiles.getD A.length default = T := by
      rw [htiles]
      exact getD_append_cons _ _ _ _
    have hgetV : e.tiles.getD (A.length + (B.length + 1)) default = V := by
      rw [htiles, show A ++ T :: (B ++ V :: C) = (A ++ T :: B) ++ V :: C by simp,
        show A.length + (B.length + 1) = (A ++ T :: B).length by simp]
      exact getD_append_cons _ _ _ _
    have hmidB : ∀ k, A.length < k → k < A.length + (B.length + 1) →
        e.tiles.getD k default ∈ B := by
      intro k h1 h2
      rw [htiles, show A ++ T :: (B ++ V :: C) = (A ++ [T]) ++ (B ++ V :: C) by simp,
        show k = (A ++ [T]).length + (k - A.length - 1) by simp; omega]
      rw [getD_append_right,
        getD_append_left (show k - A.length - 1 < B.length by omega)]
      exact getD_mem (by omega) default
    have hmt : (moveTile d e 1).tiles = A ++ V :: (B ++ T :: C) := by
      unfold moveTile
      rw [if_neg (by decide), hfind]
      dsimp only
      rw [hscr, if_pos (by decide)]
      have hstart : ((A.length : Nat) : Int) + 1
          = ((A.length + 1 : Nat) : Int) := by push_cast; ring
      rw [hstart]
      rw [moveTileLoop_scan_up d (some scr)
        (e.tiles.getD A.length default)
        (show A.length < A.length + (B.length + 1) by omega)
        (by omega)
        (by rw [hgetV]; simp [tileVisCheck, hVvis])
        (by intro k h1 h2
            have hm := hmidB k h1 h2
            simp [tileVisCheck, hBvis _ hm, -List.getD_eq_getElem?_getD])
        (e.tiles.length + 1) (A.length + 1)
        (by omega) (by omega) (by omega)]
      rw [hgetV, hgetT, htiles]
      exact set_set_swap2 A B C T V V T
    refine ⟨hmt, ?_, ?_⟩
    · rw [hmt]
      simp [List.filter_append, List.filter_cons, hfT, hfV, hBnil]
    · rw [htiles]
      simp [List.filter_append, List.filter_cons, hfT, hfV, hBnil]

/-- Witness for C8's amended theorem on the concrete engine `e8` (tiles
[1, 2, 3], window 2 invisible, window 3 focused): `ShiftUp` yields
[3, 2, 1], and among the visible tiles the focused window 3 moved exactly
one position earlier (visible order [1, 3] became [3, 1]). -/
theorem moveTile_shift_spec_witness :
    (moveTile dV e8 (-1)).tiles = [tT, tU, tV] ∧
    (moveTile dV e8 (-1)).tiles.filter (visibleOn dV s0) = [tT, tV] ∧
    e8.tiles.filter (visibleOn dV s0) = [tV, tT] := by
  have h := moveTile_shift_spec.1 dV e8 s0 [] [tU] [] tV tT
    (by decide) (by decide)
    (by intro t ht; cases ht)
    (by decide)
    (by intro t ht
        rcases List.mem_cons.mp ht with h | h
        · subst h; decide
        · cases h)
    (by decide) (by decide) (by decide)
    (by intro t ht
        rcases List.mem_cons.mp ht with h | h
        · subst h; decide
        · cases h)
  obtain ⟨h1, h2, h3⟩ := h
  refine ⟨by simpa using h1, by simpa using h2, by simpa using h3⟩

end Krohnkite
